import Mathlib

/-!
Verification development for the node-spark version manager (Go).

The definitions below are a shallow embedding of the program's core:
the path manipulation used by archive extraction (internal/extract.go),
the release-index client (internal/fetch.go), the version store and
activation logic (internal/use.go), the install pipeline
(internal/install_node.go) and the Windows shim generator
(internal/windows.go).  Paths are modelled for the POSIX build of the
program (filepath.Separator = '/', filepath.FromSlash is the identity),
which is the platform the path-handling claims quantify over; the
Windows-only repair and shim steps are modelled separately where a claim
needs them.
-/

namespace NodeSpark

/-- Splitting a list of characters at every occurrence of a separator
    character, keeping empty segments.  This is the behaviour of Go's
    strings.Split for a one-character separator, expressed on the
    character list underlying a string. -/
def splitCharList (sep : Char) : List Char → List (List Char)
  | [] => [[]]
  | c :: cs =>
    let rest := splitCharList sep cs
    if c = sep then [] :: rest
    else
      match rest with
      | [] => [[c]]
      | r :: rs => (c :: r) :: rs

/-- Go strings.Split(s, "/"): split a string on the slash separator. -/
def splitOnSlash (s : String) : List String :=
  (splitCharList '/' s.data).map String.mk

/-- Joining a list of path components with slashes (inverse of
    splitOnSlash); used to rebuild the tail of strings.SplitN and to
    rebuild cleaned paths. -/
def joinSlash (parts : List String) : String :=
  ⟨(List.intersperse ['/'] (parts.map String.data)).flatten⟩

/-- Go strings.HasPrefix(s, pre). -/
def hasPrefixStr (s pre : String) : Bool :=
  pre.data.isPrefixOf s.data

/-- Go strings.HasSuffix(s, suf). -/
def hasSuffixStr (s suf : String) : Bool :=
  suf.data.isSuffixOf s.data

/-- Go strings.TrimPrefix(s, pre): drop pre when it is a leading
    segment of s, otherwise return s unchanged. -/
def trimPrefixStr (s pre : String) : String :=
  if pre.data.isPrefixOf s.data then ⟨s.data.drop pre.data.length⟩ else s

/-- The element-processing loop of Go's filepath.Clean on a POSIX
    system: "." and empty components are dropped, ".." pops the previous
    component when one is available, a leading ".." of a relative path
    is kept, and ".." at the root of an absolute path is discarded.
    The accumulator holds the output components in reverse order. -/
def cleanLoop (rooted : Bool) (acc : List String) : List String → List String
  | [] => acc.reverse
  | p :: rest =>
    if p = "" ∨ p = "." then cleanLoop rooted acc rest
    else if p = ".." then
      match acc with
      | [] => if rooted then cleanLoop rooted [] rest else cleanLoop rooted [".."] rest
      | a :: acc2 =>
        if a = ".." then cleanLoop rooted (".." :: a :: acc2) rest
        else cleanLoop rooted acc2 rest
    else cleanLoop rooted (p :: acc) rest

/-- Go filepath.Clean for the POSIX separator. -/
def clean (path : String) : String :=
  if path = "" then "."
  else
    let rooted := hasPrefixStr path "/"
    let comps := cleanLoop rooted [] (splitOnSlash path)
    let joined := joinSlash comps
    if joined = "" then (if rooted then "/" else ".")
    else if rooted then "/" ++ joined else joined

/-- Go filepath.Join(a, b) for the POSIX separator: empty elements are
    skipped, the non-empty ones are joined with a slash and the result
    is cleaned; joining two empty strings yields the empty string. -/
def joinPath (a b : String) : String :=
  if a = "" then (if b = "" then "" else clean b)
  else if b = "" then clean a
  else clean (a ++ "/" ++ b)

/-- Go filepath.Dir for the POSIX separator: everything up to and
    including the final slash, cleaned; "." when the path holds no
    slash. -/
def dirPath (p : String) : String :=
  match (splitOnSlash p).dropLast with
  | [] => "."
  | parts => clean (joinSlash parts ++ "/")

/-- Go strings.SplitN(s, "/", 2): the first component, and the
    untouched remainder when a slash is present. -/
def splitN2 (s : String) : List String :=
  match splitOnSlash s with
  | [] => []
  | [x] => [x]
  | x :: rest => [x, joinSlash rest]

/-- Go strings.TrimSuffix(s, suf): drop suf when it is a trailing
    segment of s, otherwise return s unchanged. -/
def trimSuffixStr (s suf : String) : String :=
  if suf.data.isSuffixOf s.data then ⟨s.data.take (s.data.length - suf.data.length)⟩ else s

/-- Splitting a string at every occurrence of an arbitrary separator
    character (Go strings.Split with a one-character separator). -/
def splitOnChar (c : Char) (s : String) : List String :=
  (splitCharList c s.data).map String.mk

example : clean "/a/b/../../c" = "/c" := by decide
example : clean "/../x" = "/x" := by decide
example : clean "a/../../b" = "../b" := by decide
example : clean "a/.." = "." := by decide
example : clean "/" = "/" := by decide
example : clean "a//b/" = "a/b" := by decide
example : joinPath "/d" "../../e.txt" = "/e.txt" := by decide
example : joinPath "/d" "" = "/d" := by decide
example : dirPath "/a/b/c" = "/a/b" := by decide
example : dirPath "abc" = "." := by decide
example : splitN2 "top/../../evil.txt" = ["top", "../../evil.txt"] := by decide
example : splitN2 "root/" = ["root", ""] := by decide
example : splitN2 "root" = ["root"] := by decide

/-- Entry kinds of a tar archive that internal/extract.go's extractTarGz
    distinguishes (tar.TypeDir, tar.TypeReg, tar.TypeSymlink, anything
    else). -/
inductive TarType
  | dir
  | reg
  | symlink
  | other
deriving DecidableEq

/-- One tar archive entry, carrying the fields extractTarGz reads:
    header name, type flag, mode bits, the entry bytes (for regular
    files) and the link name (for symbolic links). -/
structure TarEntry where
  name : String
  typeflag : TarType
  mode : Nat
  content : String
  linkname : String
deriving DecidableEq

/-- One zip archive entry, carrying the fields extractZip reads: the
    entry name, whether the entry is a directory, its mode bits, and the
    entry bytes. -/
structure ZipEntry where
  name : String
  isDir : Bool
  mode : Nat
  content : String
deriving DecidableEq

/-- Filesystem effects performed by extraction.  mkdirAll records the
    os.MkdirAll call made for a directory entry (with the entry's mode);
    ensureDir records the os.MkdirAll(filepath.Dir(target), 0755) call
    that only ensures a parent directory exists before a file is
    written; createFile records a file being opened and written;
    symlinkTo records os.Symlink; warnUnsafe records the zip-slip
    warning printed for a skipped unsafe path; warnUnsupported records
    the warning printed for an unsupported tar entry type. -/
inductive FsAction
  | mkdirAll (path : String) (mode : Nat)
  | ensureDir (path : String)
  | createFile (path : String) (content : String) (mode : Nat)
  | symlinkTo (linkname : String) (target : String)
  | warnUnsafe (entryName : String)
  | warnUnsupported (entryName : String)
deriving DecidableEq

/-- The filesystem effects extractTarGz (internal/extract.go) performs
    for a single tar entry on a POSIX system: the entry name is split at
    the first separator, entries without a second component are skipped,
    and the target is destPath joined with everything after the first
    component.  There is no check that the target stays inside
    destPath. -/
def tarEntryActions (destPath : String) (e : TarEntry) : List FsAction :=
  match splitN2 e.name with
  | [_, second] =>
    let target := joinPath destPath second
    match e.typeflag with
    | .dir => [.mkdirAll target e.mode]
    | .reg => [.ensureDir (dirPath target), .createFile target e.content e.mode]
    | .symlink => [.ensureDir (dirPath target), .symlinkTo e.linkname target]
    | .other => [.warnUnsupported e.name]
  | _ => []

/-- The filesystem effects of extractTarGz over a whole archive, in
    order. -/
def extractTarGz (destPath : String) (entries : List TarEntry) : List FsAction :=
  entries.flatMap (tarEntryActions destPath)

/-- The first pass of extractZip: the top-level directory name is the
    first path component of the first entry (the loop breaks on the
    first file), or the empty string for an empty archive. -/
def zipTopLevelDir (entries : List ZipEntry) : String :=
  match entries with
  | [] => ""
  | e :: _ => ((splitOnSlash e.name).headD "")

/-- The target-path computation of extractZip (internal/extract.go) for
    one entry name on a POSIX system (filepath.FromSlash is the identity
    there): when the name carries the top-level directory as a string
    prefix, that prefix and any leading separator are stripped (the
    source trims a leading separator twice, which coincide on POSIX)
    and the remainder is joined onto the destination; otherwise the
    whole name is joined onto the destination. -/
def zipTargetPath (destPath tld name : String) : String :=
  if hasPrefixStr name tld then
    joinPath destPath (trimPrefixStr (trimPrefixStr (trimPrefixStr name tld) "/") "/")
  else joinPath destPath name

/-- The filesystem effects extractZip performs for one entry: the bare
    top-level entry is skipped, the target path is computed and cleaned,
    and any cleaned target that does not keep Clean(destPath) as a
    lexical prefix is skipped with a warning (the zip-slip guard);
    otherwise the directory or file is created, ensuring the parent
    directory first for files. -/
def zipEntryActions (destPath tld : String) (e : ZipEntry) : List FsAction :=
  if e.name = tld ++ "/" ∨ e.name = tld then []
  else
    let cleanedTarget := clean (zipTargetPath destPath tld e.name)
    if ¬ hasPrefixStr cleanedTarget (clean destPath) then [.warnUnsafe e.name]
    else if e.isDir then [.mkdirAll cleanedTarget e.mode]
    else if hasSuffixStr cleanedTarget "/" then [.ensureDir (dirPath cleanedTarget)]
    else [.ensureDir (dirPath cleanedTarget), .createFile cleanedTarget e.content e.mode]

/-- The filesystem effects of extractZip over a whole archive: an empty
    archive (empty top-level name) is an error, otherwise every entry is
    processed in order.  The Windows-only node.exe repair pass at the
    end of extractZip is a no-op on the POSIX build modelled here. -/
def extractZip (destPath : String) (entries : List ZipEntry) : Except String (List FsAction) :=
  let tld := zipTopLevelDir entries
  if tld = "" then .error "no files found in archive"
  else .ok (entries.flatMap (zipEntryActions destPath tld))

/-- Paths at which an extraction action creates something on disk
    (files, directories, symlinks); warnings create nothing. -/
def actionPaths : FsAction → List String
  | .mkdirAll p _ => [p]
  | .ensureDir p => [p]
  | .createFile p _ _ => [p]
  | .symlinkTo _ t => [t]
  | .warnUnsafe _ => []
  | .warnUnsupported _ => []

/-- Files created by a list of extraction actions, with their
    contents. -/
def createdFiles (as : List FsAction) : List (String × String) :=
  as.filterMap fun a =>
    match a with
    | .createFile p c _ => some (p, c)
    | _ => none

/-- Exactly the property the zip-slip guard checks of an action's own
    entry target: file creations, directory-entry creations and symlink
    targets keep Clean(dest) as a bare string prefix.  This is weaker
    than containment in the destination (no trailing separator is
    required, so a sibling path whose name extends the destination's
    also passes), and it says nothing about the parent-directory
    MkdirAll (ensureDir) performed before each file write; warnings
    have no target. -/
def actionTargetGuarded (dest : String) : FsAction → Bool
  | .mkdirAll p _ => hasPrefixStr p (clean dest)
  | .createFile p _ _ => hasPrefixStr p (clean dest)
  | .symlinkTo _ t => hasPrefixStr t (clean dest)
  | .ensureDir _ => true
  | .warnUnsafe _ => true
  | .warnUnsupported _ => true

/-- True lexical containment in the destination directory: the path is
    Clean(dest) itself or lies strictly below it (Clean(dest) followed
    by a path separator).  The Go zip guard checks only the bare string
    prefix, which is strictly weaker. -/
def insideDir (dest p : String) : Bool :=
  p = clean dest || hasPrefixStr p (clean dest ++ "/")

/-- Whether a path contains "root" as one of its slash-separated
    components. -/
def hasRootComponent (p : String) : Bool :=
  (splitOnSlash p).contains "root"

example :
    extractTarGz "/home/user/.node-spark/versions/v20.0.0"
      [⟨"top/../../evil.txt", .reg, 420, "owned", ""⟩] =
      [.ensureDir "/home/user/.node-spark",
       .createFile "/home/user/.node-spark/evil.txt" "owned" 420] := by decide

example :
    zipEntryActions "/home/user/.node-spark/versions/20.0.0" "root"
      ⟨"root/../../evil.txt", false, 420, "owned"⟩ =
      [.warnUnsafe "root/../../evil.txt"] := by decide

example :
    zipEntryActions "/d" "root" ⟨"root/a/b.txt", false, 420, "hi"⟩ =
      [.ensureDir "/d/a", .createFile "/d/a/b.txt" "hi" 420] := by decide

example : tarEntryActions "/d" ⟨"root/", .dir, 493, "", ""⟩ = [.mkdirAll "/d" 493] := by decide

/-- The durable state the version store operates on: the pkg.Config
    record (installPath, installedVersions, activeVersion) together with
    the relevant filesystem state — the set of version directory names
    present under installPath (diskDirs; os.Stat / os.MkdirAll /
    os.RemoveAll act on it) and the target of the activation symlink at
    HOME/.node-spark/current (currentLink; os.Remove / os.Symlink act on
    it). -/
structure Store where
  installPath : String
  installedVersions : List String
  activeVersion : String
  diskDirs : List String
  currentLink : Option String
deriving DecidableEq

/-- Config-and-disk effect of internal UseVersion on POSIX
    (internal/use.go useVersionPosix, reached through UseVersion): fails
    when the version directory does not exist, otherwise removes any
    existing activation symlink, creates a new one pointing at the
    version's directory, and records the version as active. -/
def UseVersionPosix (version : String) (st : Store) : Except String Store :=
  if ¬ st.diskDirs.contains version then
    .error ("version " ++ version ++ " is not installed")
  else
    let versionPath := joinPath st.installPath version
    let st1 := { st with currentLink := none }
    let st2 := { st1 with currentLink := some versionPath }
    .ok { st2 with activeVersion := version }

/-- The internal SetActiveVersion operation (internal/use.go): verifies
    the version directory exists on disk, delegates to UseVersion, then
    records the version as active in the config. -/
def SetActiveVersion (version : String) (st : Store) : Except String Store :=
  if ¬ st.diskDirs.contains version then
    .error ("version " ++ version ++ " is not installed")
  else
    match UseVersionPosix version st with
    | .error e => .error e
    | .ok st1 => .ok { st1 with activeVersion := version }

/-- The internal UninstallVersion operation (internal/use.go): refuses
    to remove the active version, fails when the version directory does
    not exist, otherwise removes the directory (os.RemoveAll) and erases
    the first occurrence of the identifier from the installed list. -/
def UninstallVersion (version : String) (st : Store) : Except String Store :=
  if st.activeVersion = version then
    .error "cannot uninstall the currently active version; switch to another version first"
  else if ¬ st.diskDirs.contains version then
    .error ("version " ++ version ++ " is not installed")
  else
    .ok { st with
          diskDirs := st.diskDirs.erase version,
          installedVersions := st.installedVersions.erase version }

/-- Outcomes of one DownloadFile call (internal/fetch.go): httpError is
    a request error or non-200 status (detected before os.Create, so no
    file is created); transferError is an io.Copy failure after
    os.Create (a partial file remains); success creates the complete
    file. -/
inductive DownloadOutcome
  | httpError
  | transferError
  | success
deriving DecidableEq

/-- Effect of DownloadFile (internal/fetch.go) on the set of files in
    temporary storage: the destination file exists afterwards exactly
    when os.Create ran, which happens for both transferError and
    success; the function itself never removes the file. -/
def DownloadFile (path : String) (outcome : DownloadOutcome) (tmp : List String) :
    Except String Unit × List String :=
  match outcome with
  | .httpError => (.error "bad status", tmp)
  | .transferError => (.error "copy failed", if tmp.contains path then tmp else tmp ++ [path])
  | .success => (.ok (), if tmp.contains path then tmp else tmp ++ [path])

/-- Effect of os.Remove on the temporary-file set. -/
def removeTemp (tmp : List String) (path : String) : List String :=
  tmp.filter (fun p => p ≠ path)

/-- The detectSystemInfo function (internal/install_node.go) restricted
    to its pure outcome: the (arch, os, extension) triple.  On Windows
    the function always settles on the x86 architecture regardless of
    what its probes report. -/
def detectSystemInfo (goos goarch : String) : Except String (String × String × String) :=
  match goos with
  | "linux" | "darwin" =>
    let nodeOS := goos
    match goarch with
    | "amd64" => .ok ("x64", nodeOS, "tar.gz")
    | "386" => .ok ("x86", nodeOS, "tar.gz")
    | "arm64" => .ok ("arm64", nodeOS, "tar.gz")
    | "arm" => .ok ("armv7l", nodeOS, "tar.gz")
    | _ => .error ("unsupported architecture: " ++ goarch)
  | "windows" => .ok ("x86", "win", "zip")
  | _ => .error ("unsupported operating system: " ++ goos)

deriving instance DecidableEq for Except

/-- Result of one InstallNodeVersion run: the returned error or unit,
    the config-and-disk state, and the set of files left in temporary
    storage. -/
structure InstallResult where
  res : Except String Unit
  store : Store
  temp : List String
deriving DecidableEq

/-- The internal InstallNodeVersion operation (internal/install_node.go)
    with its external effects made explicit: dl1 and dl2 are the
    outcomes of the first and the Windows-fallback download, extractOk
    abstracts whether ExtractArchive succeeds.  The model follows the
    source order: already-installed check on the v-stripped identifier,
    creation of the version directory named after the unmodified token,
    download to os.TempDir()/filename, a deferred os.Remove of the
    archive registered only after a successful download, extraction,
    then the config update appending the v-stripped identifier.  The
    interactive use-it-now prompt at the end is modelled as declined. -/
def InstallNodeVersion (goos goarch : String) (version : String)
    (dl1 dl2 : DownloadOutcome) (extractOk : Bool) (st : Store) (tmp : List String) :
    InstallResult :=
  let cleanVersion := trimPrefixStr version "v"
  if st.installedVersions.contains cleanVersion then ⟨.ok (), st, tmp⟩
  else
    let st := { st with diskDirs := if st.diskDirs.contains version then st.diskDirs
                                    else version :: st.diskDirs }
    let versionStr := if hasPrefixStr version "v" then version else "v" ++ version
    match detectSystemInfo goos goarch with
    | .error e => ⟨.error e, st, tmp⟩
    | .ok (nodeArch, nodeOS, ext) =>
      let filename := "node-" ++ versionStr ++ "-" ++ nodeOS ++ "-" ++ nodeArch ++ "." ++ ext
      let archivePath := "/tmp/" ++ filename
      let (r1, tmp) := DownloadFile archivePath dl1 tmp
      let afterDownload : String → List String → InstallResult := fun archivePath tmp =>
        if ¬ extractOk then
          ⟨.error "failed to extract Node.js archive", st, removeTemp tmp archivePath⟩
        else
          let st :=
            if st.installedVersions.contains cleanVersion then st
            else { st with installedVersions := st.installedVersions ++ [cleanVersion] }
          ⟨.ok (), st, removeTemp tmp archivePath⟩
      match r1 with
      | .ok _ => afterDownload archivePath tmp
      | .error _ =>
        if goos = "windows" ∧ nodeArch = "x64" then
          let filename2 := "node-" ++ versionStr ++ "-" ++ nodeOS ++ "-x86." ++ ext
          let archivePath2 := "/tmp/" ++ filename2
          let (r2, tmp) := DownloadFile archivePath2 dl2 tmp
          match r2 with
          | .ok _ => afterDownload archivePath2 tmp
          | .error _ => ⟨.error "failed to download Node.js archive", st, tmp⟩
        else ⟨.error "failed to download Node.js archive", st, tmp⟩

/-- Config-and-disk effect of a successful, non-interactive
    InstallNodeVersion run on Linux (downloads and extraction succeed),
    used by the store-level claims. -/
def installStore (version : String) (st : Store) : Store :=
  (InstallNodeVersion "linux" "amd64" version .success .success true st []).store

/-- The version-store invariant stated by the specification: a non-empty
    active identifier is an element of the installed set. -/
def StoreInvariant (st : Store) : Prop :=
  st.activeVersion ≠ "" → st.activeVersion ∈ st.installedVersions

instance (st : Store) : Decidable (StoreInvariant st) := by
  unfold StoreInvariant; infer_instance

example :
    installStore "v18.17.0" ⟨"/r", [], "", [], none⟩ =
      ⟨"/r", ["18.17.0"], "", ["v18.17.0"], none⟩ := by decide

example :
    (InstallNodeVersion "linux" "amd64" "18.17.0" .transferError .success true
      ⟨"/r", [], "", [], none⟩ []).temp = ["/tmp/node-v18.17.0-linux-x64.tar.gz"] := by decide

/-- Value of the loosely-typed lts field of a release-index row
    (interface{} in internal/fetch.go): absent, a JSON boolean, or a
    codename string. -/
inductive LTSValue
  | absent
  | boolVal (b : Bool)
  | strVal (s : String)
deriving DecidableEq

/-- One row of the remote release index, restricted to the fields the
    claims read (version and lts; date, files, modules, npm and v8 are
    carried by the Go struct but never consulted by the modelled
    operations). -/
structure NodeVersion where
  version : String
  lts : LTSValue
deriving DecidableEq

/-- The IsLTS method of NodeVersion (internal/fetch.go): true for a
    boolean true and for a non-empty codename string. -/
def NodeVersion.IsLTS (v : NodeVersion) : Bool :=
  match v.lts with
  | .boolVal b => b
  | .strVal s => s ≠ ""
  | .absent => false

/-- Go strconv.Atoi: an optional sign followed by at least one decimal
    digit, rejecting anything else and any value outside the signed
    64-bit range. -/
def atoi (s : String) : Option Int :=
  match s.data with
  | [] => none
  | c :: rest =>
    let signDigits : Bool × List Char :=
      if c = '-' then (true, rest)
      else if c = '+' then (false, rest)
      else (false, c :: rest)
    let neg := signDigits.1
    let digits := signDigits.2
    if digits = [] then none
    else if digits.all (fun d => d.isDigit) then
      let n : Nat := digits.foldl (fun acc d => acc * 10 + (d.toNat - 48)) 0
      let v : Int := if neg then -(n : Int) else (n : Int)
      if v < -(2 ^ 63 : Int) ∨ v > 2 ^ 63 - 1 then none else some v
    else none

/-- The extractVersionNumbers helper (internal/fetch.go): strip a
    leading "v", split on dots, take each part up to the first dash, and
    keep the parts that parse as integers. -/
def extractVersionNumbers (version : String) : List Int :=
  let v := trimPrefixStr version "v"
  (splitOnChar '.' v).filterMap (fun part => atoi ((splitOnChar '-' part).headD ""))

/-- The comparison loop of the sort.Slice closure in
    FetchAvailableVersions (internal/fetch.go): walk the two component
    lists together, decide on the first differing component (descending,
    so the greater component sorts first), and when all shared
    components agree the longer list sorts first. -/
def versionLessLoop : List Int → List Int → Bool
  | x :: xs, y :: ys => if x ≠ y then decide (x > y) else versionLessLoop xs ys
  | xs, ys => decide (xs.length > ys.length)

/-- The sort.Slice comparator itself, on index rows. -/
def versionLess (a b : NodeVersion) : Bool :=
  versionLessLoop (extractVersionNumbers a.version) (extractVersionNumbers b.version)

/-- Insertion of an element into a list sorted by a Boolean
    may-come-before relation. -/
def insertSorted (le : NodeVersion → NodeVersion → Bool) (a : NodeVersion) :
    List NodeVersion → List NodeVersion
  | [] => [a]
  | b :: l => if le a b then a :: b :: l else b :: insertSorted le a l

/-- Sorting by a Boolean may-come-before relation (insertion sort). -/
def sortBy (le : NodeVersion → NodeVersion → Bool) : List NodeVersion → List NodeVersion
  | [] => []
  | a :: l => insertSorted le a (sortBy le l)

/-- The sorted version list FetchAvailableVersions returns: the index
    rows ordered by the sort.Slice comparator (newest first).
    sort.Slice performs an unspecified comparison sort; it is modelled
    as an insertion sort consistent with the same comparator (a stays
    before b whenever the comparator does not order b strictly before
    a). -/
def sortVersions (l : List NodeVersion) : List NodeVersion :=
  sortBy (fun a b => ! versionLess b a) l

/-- The FetchVersionDetails operation (internal/fetch.go), with the
    fetched remote index passed in explicitly: standardize the query by
    prepending "v" when missing, then return the first index row whose
    version string is exactly the standardized query; every other query
    — including the tokens "latest" and "lts" — fails with a not-found
    error.  No branch of the function treats "latest" or "lts"
    specially. -/
def FetchVersionDetails (index : List NodeVersion) (versionQuery : String) :
    Except String NodeVersion :=
  let versions := sortVersions index
  let vq := if hasPrefixStr versionQuery "v" then versionQuery else "v" ++ versionQuery
  match versions.find? (fun v => v.version == vq) with
  | some v => .ok v
  | none => .error ("version " ++ vq ++ " not found in Node.js index")

example : extractVersionNumbers "v18.17.0" = [18, 17, 0] := by decide
example : extractVersionNumbers "1.2.3-rc.1" = [1, 2, 3, 1] := by decide
example : atoi "rc" = none := by decide
example : versionLessLoop [20] [18, 17] = true := by decide
example : versionLessLoop [18, 17] [18] = true := by decide
example : versionLessLoop [18] [18, 17] = false := by decide
example :
    sortVersions [⟨"v18.17.0", .strVal "Hydrogen"⟩, ⟨"v20.0.0", .boolVal false⟩] =
      [⟨"v20.0.0", .boolVal false⟩, ⟨"v18.17.0", .strVal "Hydrogen"⟩] := by decide
example :
    FetchVersionDetails [⟨"v20.0.0", .boolVal false⟩] "20.0.0" = .ok ⟨"v20.0.0", .boolVal false⟩ := by
  decide

/-- Abstract filesystem for the Windows shim generator: the files as
    (path, content) pairs, listed in the lexical order filepath.Walk
    traverses them.  Writes overwrite in place or append. -/
abbrev FileSys := List (String × String)

/-- The path of the file named n directly inside directory d.  This is
    filepath.Join(d, n) for an already-clean directory path d and a bare
    file name n, for which Join performs plain concatenation. -/
def pathUnder (d n : String) : String :=
  d ++ "/" ++ n

/-- Go os.Stat success on the abstract filesystem. -/
def statFs (fs : FileSys) (p : String) : Bool :=
  fs.any (fun e => e.1 == p)

/-- Go os.WriteFile on the abstract filesystem: truncate an existing
    file in place, or create a new one. -/
def writeFs (fs : FileSys) (p c : String) : FileSys :=
  if statFs fs p then fs.map (fun e => if e.1 == p then (p, c) else e)
  else fs ++ [(p, c)]

/-- The final path component (os.FileInfo.Name of a file visited by
    filepath.Walk). -/
def baseName (p : String) : String :=
  (splitOnSlash p).getLastD ""

/-- The recursive search CreateWindowsShims performs with filepath.Walk:
    the first file under root (in traversal order) whose name is
    node.exe. -/
def walkFindNodeExe (fs : FileSys) (root : String) : Option String :=
  (fs.find? (fun e => hasPrefixStr e.1 (root ++ "/") && baseName e.1 == "node.exe")).map
    (fun e => e.1)

/-- The node.exe location search at the top of CreateWindowsShims
    (internal/windows.go): the given bin path if node.exe is there, else
    its bin subdirectory, else the directory of a recursively-found
    node.exe, else the original path unchanged. -/
def locateNodeBinPath (fs : FileSys) (nodeBinPath : String) : String :=
  if statFs fs (pathUnder nodeBinPath "node.exe") then nodeBinPath
  else
    let binDir := nodeBinPath ++ "/bin"
    if statFs fs (pathUnder binDir "node.exe") then binDir
    else
      match walkFindNodeExe fs nodeBinPath with
      | some p => dirPath p
      | none => nodeBinPath

/-- The batch-script shim template of CreateWindowsShims, instantiated
    with the located source path. -/
def shimTemplate (src : String) : String :=
  "@echo off\r\n\"" ++ src ++ "\" %*"

/-- The error-reporting fallback shim CreateWindowsShims writes when
    node.exe cannot be located at all. -/
def errorShimContent : String :=
  "@echo off\r\necho Node.js executable could not be found. Please reinstall this version.\r\nexit /b 1"

/-- The decision the body of the shim-creation loop takes for one binary
    name: the shim content to write, or none when the binary is skipped.
    A shim is written when the source executable exists; for npm.cmd and
    npx.cmd a missing source falls back to the first existing
    alternative name (base, base.bat, base again — as in the source). -/
def shimPlan (fs : FileSys) (nbp2 : String) (binary : String) : Option String :=
  let sourcePath := pathUnder nbp2 binary
  if statFs fs sourcePath then some (shimTemplate sourcePath)
  else if binary == "npm.cmd" || binary == "npx.cmd" then
    let base := trimSuffixStr binary ".cmd"
    let alternatives := [base, base ++ ".bat", base]
    match alternatives.find? (fun alt => statFs fs (pathUnder nbp2 alt)) with
    | some alt => some (shimTemplate (pathUnder nbp2 alt))
    | none => none
  else none

/-- One iteration of the shim-creation loop: perform the planned write,
    if any, into the shim directory. -/
def shimStep (nbp2 shimDir : String) (fs : FileSys) (binary : String) : FileSys :=
  match shimPlan fs nbp2 binary with
  | some c => writeFs fs (pathUnder shimDir binary) c
  | none => fs

/-- The fixed set of shims CreateWindowsShims generates.  The Go source
    iterates a map in unspecified order; the model fixes one order,
    which is immaterial because the three shim files are distinct. -/
def shimBinaries : List String :=
  ["node.exe", "npm.cmd", "npx.cmd"]

/-- The CreateWindowsShims operation (internal/windows.go) on the
    abstract filesystem: locate the real node.exe once, run the
    shim-creation loop, then — when no node.exe shim ended up in the
    shim directory — write the error-reporting fallback shim. -/
def CreateWindowsShims (nodeBinPath shimDir : String) (fs : FileSys) : FileSys :=
  let nbp2 := locateNodeBinPath fs nodeBinPath
  let fs1 := shimBinaries.foldl (shimStep nbp2 shimDir) fs
  if statFs fs1 (pathUnder shimDir "node.exe") then fs1
  else writeFs fs1 (pathUnder shimDir "node.exe") errorShimContent

/-- The paths CreateWindowsShims may write: one shim per generated
    binary name inside the shim directory. -/
def shimPaths (shimDir : String) : List String :=
  shimBinaries.map (pathUnder shimDir)

/-- The file names under the located bin directory that the
    shim-creation loop may consult. -/
def shimReadNames : List String :=
  ["node.exe", "npm.cmd", "npx.cmd", "npm", "npm.bat", "npx", "npx.bat"]

example :
    CreateWindowsShims "/v/18" "/s" [("/v/18/node.exe", "NODE")] =
      [("/v/18/node.exe", "NODE"),
       ("/s/node.exe", "@echo off\r\n\"/v/18/node.exe\" %*")] := by decide

example :
    CreateWindowsShims "/v/18" "/s" [("/v/18/lib/app.js", "x")] =
      [("/v/18/lib/app.js", "x"), ("/s/node.exe", errorShimContent)] := by decide

/-- A two-row release index used to evaluate the index client at
    concrete inputs: a current release and an older LTS release. -/
def sampleIndex : List NodeVersion :=
  [⟨"v20.0.0", .boolVal false⟩, ⟨"v18.17.0", .strVal "Hydrogen"⟩]

/-- The temporary-storage path InstallNodeVersion downloads to on a
    Linux amd64 system, in the shape the model computes it. -/
def linuxX64ArchivePath (version : String) : String :=
  "/tmp/" ++
    ("node-" ++ (if hasPrefixStr version "v" then version else "v" ++ version) ++
      "-" ++ "linux" ++ "-" ++ "x64" ++ "." ++ "tar.gz")

/-- The statement of the specification's sort-order sentence, written
    out over the extracted numeric component lists: one version sorts
    before another when at the first position where both lists carry a
    component the former's is greater, or when the latter's list is a
    strict prefix of the former's. -/
def SpecSortsBefore (xs ys : List Int) : Prop :=
  (∃ k : Nat, (∀ j : Nat, j < k → xs.get? j = ys.get? j)
      ∧ ∃ a b : Int, xs.get? k = some a ∧ ys.get? k = some b ∧ b < a)
  ∨ (ys <+: xs ∧ ys ≠ xs)

/-- Every entry of the abstract filesystem that carries the key p holds
    exactly the content c. -/
def allKey (fs : FileSys) (p c : String) : Prop :=
  ∀ e ∈ fs, e.1 = p → e = (p, c)

/-- States reachable from a base filesystem by a sequence of writes at
    paths drawn from ps. -/
inductive ShimWrites (ps : List String) : FileSys → FileSys → Prop
  | refl (fs : FileSys) : ShimWrites ps fs fs
  | step (fs1 fs2 : FileSys) (p c : String) (hp : p ∈ ps) (h : ShimWrites ps fs1 fs2) :
      ShimWrites ps fs1 (writeFs fs2 p c)

lemma zipTopLevelDir_cons (n : String) (d : Bool) (m : Nat) (c : String)
    (rest : List ZipEntry) :
    zipTopLevelDir (⟨n, d, m, c⟩ :: rest) = (splitOnSlash n).headD "" := rfl

lemma zipEntryActions_skipped (destPath tld name : String) (m : Nat) (content : String)
    (isDir : Bool)
    (h0 : ¬ (name = tld ++ "/" ∨ name = tld))
    (hg : ¬ hasPrefixStr (clean (zipTargetPath destPath tld name)) (clean destPath) = true) :
    zipEntryActions destPath tld ⟨name, isDir, m, content⟩ = [.warnUnsafe name] := by
  simp only [zipEntryActions]
  rw [if_neg h0, if_pos hg]

lemma zipEntryActions_file (destPath tld name : String) (m : Nat) (content : String)
    (h0 : ¬ (name = tld ++ "/" ∨ name = tld))
    (hg : hasPrefixStr (clean (zipTargetPath destPath tld name)) (clean destPath) = true)
    (hs : ¬ hasSuffixStr (clean (zipTargetPath destPath tld name)) "/" = true) :
    zipEntryActions destPath tld ⟨name, false, m, content⟩ =
      [.ensureDir (dirPath (clean (zipTargetPath destPath tld name))),
       .createFile (clean (zipTargetPath destPath tld name)) content m] := by
  simp only [zipEntryActions]
  rw [if_neg h0, if_neg (not_not_intro hg), if_neg (by decide : ¬ (false = true)), if_neg hs]

lemma tarEntryActions_reg (destPath name : String) (m : Nat) (content link : String)
    (f s : String) (hsplit : splitN2 name = [f, s]) :
    tarEntryActions destPath ⟨name, .reg, m, content, link⟩ =
      [.ensureDir (dirPath (joinPath destPath s)),
       .createFile (joinPath destPath s) content m] := by
  simp only [tarEntryActions]
  rw [hsplit]

/-- C1 counterexample: the claim says no file or directory is ever
    created outside the destination, the tar path included; but both
    paths escape.  Extracting the tar entry "top/../../evil.txt" into
    the version directory creates a file at
    /home/user/.node-spark/evil.txt, outside the destination; and the
    zip entry "root/../18.17.0x" extracted into .../versions/18.17.0
    passes the bare string-prefix guard and creates its file at the
    sibling path .../versions/18.17.0x, with the preceding
    parent-directory MkdirAll at .../versions — neither inside the
    destination. -/
theorem C1_counterexample :
    (FsAction.createFile "/home/user/.node-spark/evil.txt" "owned" 420
        ∈ extractTarGz "/home/user/.node-spark/versions/v20.0.0"
            [⟨"top/../../evil.txt", .reg, 420, "owned", ""⟩]
      ∧ hasPrefixStr "/home/user/.node-spark/evil.txt"
          (clean "/home/user/.node-spark/versions/v20.0.0") = false)
    ∧ (extractZip "/home/user/.node-spark/versions/18.17.0"
          [⟨"root/", true, 493, ""⟩, ⟨"root/../18.17.0x", false, 420, "owned"⟩] =
          .ok [.ensureDir "/home/user/.node-spark/versions",
               .createFile "/home/user/.node-spark/versions/18.17.0x" "owned" 420]
      ∧ insideDir "/home/user/.node-spark/versions/18.17.0"
          "/home/user/.node-spark/versions/18.17.0x" = false
      ∧ insideDir "/home/user/.node-spark/versions/18.17.0"
          "/home/user/.node-spark/versions" = false) := by
  decide

/-- C1 amended: neither extraction path confines its filesystem effects
    to the destination directory.  The zip guard enforces exactly a
    bare string-prefix property on each entry's own cleaned target
    (first conjunct), but that check requires no trailing separator and
    exempts the parent-directory MkdirAll made before each file write,
    so the zip file entry "root/../18.17.0x" extracted into
    .../versions/18.17.0 passes the guard, creates its file at the
    sibling path .../versions/18.17.0x and ensures the destination's
    parent directory .../versions — neither inside the destination.
    The tar path performs no check at all: the entry
    "top/../../evil.txt" creates a file two levels above the
    destination. -/
theorem C1_theorem :
    (∀ (dest tld : String) (e : ZipEntry) (a : FsAction),
        a ∈ zipEntryActions dest tld e → actionTargetGuarded dest a = true)
    ∧ zipEntryActions "/home/user/.node-spark/versions/18.17.0" "root"
        ⟨"root/../18.17.0x", false, 420, "owned"⟩ =
        [.ensureDir "/home/user/.node-spark/versions",
         .createFile "/home/user/.node-spark/versions/18.17.0x" "owned" 420]
    ∧ insideDir "/home/user/.node-spark/versions/18.17.0"
        "/home/user/.node-spark/versions/18.17.0x" = false
    ∧ insideDir "/home/user/.node-spark/versions/18.17.0"
        "/home/user/.node-spark/versions" = false
    ∧ extractTarGz "/home/user/.node-spark/versions/v20.0.0"
        [⟨"top/../../evil.txt", .reg, 420, "owned", ""⟩] =
        [.ensureDir "/home/user/.node-spark",
         .createFile "/home/user/.node-spark/evil.txt" "owned" 420]
    ∧ insideDir "/home/user/.node-spark/versions/v20.0.0"
        "/home/user/.node-spark/evil.txt" = false := by
  refine ⟨?_, by decide, by decide, by decide, by decide, by decide⟩
  intro dest tld e a ha
  simp only [zipEntryActions] at ha
  by_cases h0 : (e.name = tld ++ "/" ∨ e.name = tld)
  · rw [if_pos h0] at ha
    exact absurd ha (List.not_mem_nil a)
  · rw [if_neg h0] at ha
    by_cases hg : hasPrefixStr (clean (zipTargetPath dest tld e.name)) (clean dest) = true
    · rw [if_neg (not_not_intro hg)] at ha
      split at ha
      · simp only [List.mem_singleton] at ha
        subst ha
        simpa only [actionTargetGuarded] using hg
      · split at ha
        · simp only [List.mem_singleton] at ha
          subst ha
          rfl
        · simp only [List.mem_cons, List.not_mem_nil, or_false] at ha
          rcases ha with ha | ha
          · subst ha
            rfl
          · subst ha
            simpa only [actionTargetGuarded] using hg
    · rw [if_pos hg] at ha
      simp only [List.mem_singleton] at ha
      subst ha
      rfl

/-- C2: a crafted zip entry named "root/../../evil.txt" is rejected by
    the zip-slip guard with a warning only (no file or directory
    action), and extraction of the remaining archive entries continues
    unaffected, whatever entries come before or after it. -/
theorem C2_theorem (pre post : List ZipEntry) (content : String) (m : Nat) :
    zipEntryActions "/home/user/.node-spark/versions/20.0.0" "root"
        ⟨"root/../../evil.txt", false, m, content⟩ =
        [.warnUnsafe "root/../../evil.txt"]
    ∧ extractZip "/home/user/.node-spark/versions/20.0.0"
        (⟨"root/", true, 493, ""⟩ ::
          pre ++ ⟨"root/../../evil.txt", false, m, content⟩ :: post) =
      .ok (pre.flatMap (zipEntryActions "/home/user/.node-spark/versions/20.0.0" "root")
           ++ FsAction.warnUnsafe "root/../../evil.txt" ::
              post.flatMap (zipEntryActions "/home/user/.node-spark/versions/20.0.0" "root")) := by
  have h1 : zipEntryActions "/home/user/.node-spark/versions/20.0.0" "root"
      ⟨"root/../../evil.txt", false, m, content⟩ = [.warnUnsafe "root/../../evil.txt"] :=
    zipEntryActions_skipped _ _ _ _ _ _ (by decide) (by decide)
  have h0 : zipEntryActions "/home/user/.node-spark/versions/20.0.0" "root"
      ⟨"root/", true, 493, ""⟩ = [] := by decide
  refine ⟨h1, ?_⟩
  have htld : zipTopLevelDir
      (⟨"root/", true, 493, ""⟩ ::
        pre ++ ⟨"root/../../evil.txt", false, m, content⟩ :: post) = "root" :=
    (zipTopLevelDir_cons _ _ _ _ _).trans (by decide)
  simp only [extractZip]
  rw [htld, if_neg (by decide : ¬ ("root" = ""))]
  simp only [List.flatMap_cons, List.flatMap_append, h0, h1]
  simp

/-- C4: the index client's resolve path (FetchVersionDetails) does not
    treat the tokens "latest" and "lts" specially: it v-prefixes them
    and looks for an exact version match, so both fail with a not-found
    error even on an index that has a well-defined newest entry and an
    LTS entry. -/
theorem C4_theorem :
    FetchVersionDetails sampleIndex "latest" =
        .error "version vlatest not found in Node.js index"
    ∧ FetchVersionDetails sampleIndex "lts" =
        .error "version vlts not found in Node.js index"
    ∧ (sortVersions sampleIndex).head? = some ⟨"v20.0.0", .boolVal false⟩
    ∧ ((sortVersions sampleIndex).find? (fun v => v.IsLTS)) =
        some ⟨"v18.17.0", .strVal "Hydrogen"⟩ := by
  decide

/-- C7: extracting a well-formed archive whose entries are "root/"
    followed by "root/a/b.txt" — through the tar path and through the
    zip path — creates exactly the file dest/a/b.txt with the archived
    content, and no created path contains a "root" component. -/
theorem C7_theorem (content : String) :
    extractTarGz "/home/user/.node-spark/versions/18.17.0"
        [⟨"root/", .dir, 493, "", ""⟩, ⟨"root/a/b.txt", .reg, 420, content, ""⟩] =
      [.mkdirAll "/home/user/.node-spark/versions/18.17.0" 493,
       .ensureDir "/home/user/.node-spark/versions/18.17.0/a",
       .createFile "/home/user/.node-spark/versions/18.17.0/a/b.txt" content 420]
    ∧ createdFiles (extractTarGz "/home/user/.node-spark/versions/18.17.0"
        [⟨"root/", .dir, 493, "", ""⟩, ⟨"root/a/b.txt", .reg, 420, content, ""⟩]) =
      [("/home/user/.node-spark/versions/18.17.0/a/b.txt", content)]
    ∧ extractZip "/home/user/.node-spark/versions/18.17.0"
        [⟨"root/", true, 493, ""⟩, ⟨"root/a/b.txt", false, 420, content⟩] =
      .ok [.ensureDir "/home/user/.node-spark/versions/18.17.0/a",
           .createFile "/home/user/.node-spark/versions/18.17.0/a/b.txt" content 420]
    ∧ (extractTarGz "/home/user/.node-spark/versions/18.17.0"
        [⟨"root/", .dir, 493, "", ""⟩, ⟨"root/a/b.txt", .reg, 420, content, ""⟩]).flatMap
          actionPaths =
      ["/home/user/.node-spark/versions/18.17.0",
       "/home/user/.node-spark/versions/18.17.0/a",
       "/home/user/.node-spark/versions/18.17.0/a/b.txt"]
    ∧ (["/home/user/.node-spark/versions/18.17.0",
        "/home/user/.node-spark/versions/18.17.0/a",
        "/home/user/.node-spark/versions/18.17.0/a/b.txt"].all
          (fun p => ! hasRootComponent p)) = true := by
  have t0 : tarEntryActions "/home/user/.node-spark/versions/18.17.0"
      ⟨"root/", .dir, 493, "", ""⟩ =
      [.mkdirAll "/home/user/.node-spark/versions/18.17.0" 493] := by decide
  have t1 : tarEntryActions "/home/user/.node-spark/versions/18.17.0"
      ⟨"root/a/b.txt", .reg, 420, content, ""⟩ =
      [.ensureDir "/home/user/.node-spark/versions/18.17.0/a",
       .createFile "/home/user/.node-spark/versions/18.17.0/a/b.txt" content 420] := by
    rw [tarEntryActions_reg _ _ _ _ _ "root" "a/b.txt" (by decide),
      show joinPath "/home/user/.node-spark/versions/18.17.0" "a/b.txt" =
        "/home/user/.node-spark/versions/18.17.0/a/b.txt" from by decide,
      show dirPath "/home/user/.node-spark/versions/18.17.0/a/b.txt" =
        "/home/user/.node-spark/versions/18.17.0/a" from by decide]
  have htar : extractTarGz "/home/user/.node-spark/versions/18.17.0"
      [⟨"root/", .dir, 493, "", ""⟩, ⟨"root/a/b.txt", .reg, 420, content, ""⟩] =
      [.mkdirAll "/home/user/.node-spark/versions/18.17.0" 493,
       .ensureDir "/home/user/.node-spark/versions/18.17.0/a",
       .createFile "/home/user/.node-spark/versions/18.17.0/a/b.txt" content 420] := by
    simp only [extractTarGz, List.flatMap_cons, List.flatMap_nil, t0, t1]
    simp
  have z1 : zipEntryActions "/home/user/.node-spark/versions/18.17.0" "root"
      ⟨"root/a/b.txt", false, 420, content⟩ =
      [.ensureDir "/home/user/.node-spark/versions/18.17.0/a",
       .createFile "/home/user/.node-spark/versions/18.17.0/a/b.txt" content 420] := by
    rw [zipEntryActions_file _ _ _ _ _ (by decide) (by decide) (by decide),
      show clean (zipTargetPath "/home/user/.node-spark/versions/18.17.0" "root"
          "root/a/b.txt") = "/home/user/.node-spark/versions/18.17.0/a/b.txt" from by decide,
      show dirPath "/home/user/.node-spark/versions/18.17.0/a/b.txt" =
        "/home/user/.node-spark/versions/18.17.0/a" from by decide]
  have hzip : extractZip "/home/user/.node-spark/versions/18.17.0"
      [⟨"root/", true, 493, ""⟩, ⟨"root/a/b.txt", false, 420, content⟩] =
      .ok [.ensureDir "/home/user/.node-spark/versions/18.17.0/a",
           .createFile "/home/user/.node-spark/versions/18.17.0/a/b.txt" content 420] := by
    have htld : zipTopLevelDir
        [⟨"root/", true, 493, ""⟩, ⟨"root/a/b.txt", false, 420, content⟩] = "root" :=
      (zipTopLevelDir_cons _ _ _ _ _).trans (by decide)
    simp only [extractZip]
    rw [htld, if_neg (by decide : ¬ ("root" = ""))]
    simp only [List.flatMap_cons, List.flatMap_nil, z1,
      show zipEntryActions "/home/user/.node-spark/versions/18.17.0" "root"
        ⟨"root/", true, 493, ""⟩ = [] from by decide]
    simp
  refine ⟨htar, ?_, hzip, ?_, by decide⟩
  · rw [htar]
    rfl
  · rw [htar]
    rfl

/-- C5 counterexample: from the empty store (which satisfies the
    invariant), installing the token "v18.17.0" records the identifier
    "18.17.0" but names the directory "v18.17.0"; the resulting store
    still satisfies the invariant, yet activating "v18.17.0" — which
    succeeds, because activation checks directory presence rather than
    installed-set membership — produces a store whose active identifier
    is not in the installed set. -/
theorem C5_counterexample :
    StoreInvariant (installStore "v18.17.0" ⟨"/home/user/.node-spark/versions", [], "", [], none⟩)
    ∧ SetActiveVersion "v18.17.0"
        (installStore "v18.17.0" ⟨"/home/user/.node-spark/versions", [], "", [], none⟩) =
      .ok ⟨"/home/user/.node-spark/versions", ["18.17.0"], "v18.17.0", ["v18.17.0"],
           some "/home/user/.node-spark/versions/v18.17.0"⟩
    ∧ ¬ StoreInvariant ⟨"/home/user/.node-spark/versions", ["18.17.0"], "v18.17.0",
           ["v18.17.0"], some "/home/user/.node-spark/versions/v18.17.0"⟩ := by
  decide

/-- C6 counterexample: when the download itself fails partway (the
    output file was created but the copy failed), InstallNodeVersion
    returns an error and the partial archive file is left in temporary
    storage — the deferred removal is only registered after a
    successful download. -/
theorem C6_counterexample :
    (InstallNodeVersion "linux" "amd64" "18.17.0" .transferError .success true
        ⟨"/r", [], "", [], none⟩ []).res = .error "failed to download Node.js archive"
    ∧ (InstallNodeVersion "linux" "amd64" "18.17.0" .transferError .success true
        ⟨"/r", [], "", [], none⟩ []).temp = ["/tmp/node-v18.17.0-linux-x64.tar.gz"] := by
  decide

lemma containsStr_iff (l : List String) (a : String) : l.contains a = true ↔ a ∈ l :=
  List.elem_iff

lemma containsStr_false_iff (l : List String) (a : String) :
    l.contains a = false ↔ a ∉ l := by
  constructor
  · intro h hm
    rw [(containsStr_iff l a).mpr hm] at h
    cases h
  · intro h
    cases hc : l.contains a
    · rfl
    · exact absurd ((containsStr_iff l a).mp hc) h

lemma detectSystemInfo_linux_amd64 :
    detectSystemInfo "linux" "amd64" = .ok ("x64", "linux", "tar.gz") := by decide

lemma installStore_eq (t : String) (st : Store) :
    installStore t st =
      if st.installedVersions.contains (trimPrefixStr t "v") then st
      else { st with
             diskDirs := if st.diskDirs.contains t then st.diskDirs else t :: st.diskDirs,
             installedVersions := st.installedVersions ++ [trimPrefixStr t "v"] } := by
  by_cases h : st.installedVersions.contains (trimPrefixStr t "v") = true
  · rw [if_pos h]
    unfold installStore InstallNodeVersion
    rw [if_pos h]
  · rw [if_neg h]
    unfold installStore InstallNodeVersion
    rw [if_neg h]
    simp only [detectSystemInfo_linux_amd64, DownloadFile]
    rw [if_neg h, if_neg (not_not_intro trivial)]

lemma removeTemp_contains_self (l : List String) (p : String) :
    (removeTemp l p).contains p = false := by
  rw [containsStr_false_iff]
  intro hm
  have := (List.mem_filter.mp hm).2
  simp at this

lemma insertTemp_contains_self (l : List String) (p : String) :
    ((if l.contains p then l else l ++ [p]).contains p) = true := by
  split
  · assumption
  · rw [containsStr_iff]
    exact List.mem_append_right l (List.mem_singleton.mpr rfl)

/-- C3: for an identifier whose version directory exists on disk (the
    store's own notion of being installed), removal fails exactly when
    the identifier is the active version; otherwise it succeeds,
    deletes the directory and leaves the identifier out of both the
    disk set and the installed list. -/
theorem C3_theorem (st : Store) (id : String)
    (hdisk : st.diskDirs.contains id = true)
    (hnd : st.installedVersions.Nodup) (hdd : st.diskDirs.Nodup) :
    ((∃ e, UninstallVersion id st = .error e) ↔ id = st.activeVersion)
    ∧ (id ≠ st.activeVersion →
        UninstallVersion id st =
          .ok { st with
                diskDirs := st.diskDirs.erase id,
                installedVersions := st.installedVersions.erase id }
        ∧ (st.diskDirs.erase id).contains id = false
        ∧ (st.installedVersions.erase id).contains id = false) := by
  constructor
  · constructor
    · rintro ⟨e, he⟩
      by_cases hact : st.activeVersion = id
      · exact hact.symm
      · unfold UninstallVersion at he
        rw [if_neg hact, if_neg (not_not_intro hdisk)] at he
        cases he
    · intro h
      refine ⟨"cannot uninstall the currently active version; switch to another version first", ?_⟩
      unfold UninstallVersion
      rw [if_pos h.symm]
  · intro hne
    refine ⟨?_, ?_, ?_⟩
    · unfold UninstallVersion
      rw [if_neg (fun hh => hne hh.symm), if_neg (not_not_intro hdisk)]
    · rw [containsStr_false_iff]
      intro hm
      exact ((hdd.mem_erase_iff).mp hm).1 rfl
    · rw [containsStr_false_iff]
      intro hm
      exact ((hnd.mem_erase_iff).mp hm).1 rfl

theorem C3_witness :
    UninstallVersion "18.17.0"
        ⟨"/r", ["18.17.0", "20.0.0"], "20.0.0", ["18.17.0", "20.0.0"], none⟩ =
      .ok ⟨"/r", ["20.0.0"], "20.0.0", ["20.0.0"], none⟩
    ∧ (["18.17.0", "20.0.0"].erase "18.17.0").contains "18.17.0" = false
    ∧ (["18.17.0", "20.0.0"].erase "18.17.0").contains "18.17.0" = false := by
  have h := ( C3_theorem ⟨"/r", ["18.17.0", "20.0.0"], "20.0.0", ["18.17.0", "20.0.0"], none⟩
    "18.17.0" (by decide) (by decide) (by decide)).2 (by decide)
  refine ⟨?_, h.2.1, h.2.2⟩
  exact h.1.trans (by decide)

/-- C5 amended: Install and Remove preserve the version-store invariant
    (a non-empty active identifier is in the installed set), and
    Activate preserves it only under the additional assumption that the
    activated identifier is a member of the installed set — the code
    itself checks directory presence, not membership, and can therefore
    break the invariant (see the counterexample). -/
theorem C5_theorem (st st2 st3 : Store) (t v w : String) (hInv : StoreInvariant st) :
    StoreInvariant (installStore t st)
    ∧ (UninstallVersion v st = .ok st2 → StoreInvariant st2)
    ∧ (SetActiveVersion w st = .ok st3 → w ∈ st.installedVersions → StoreInvariant st3) := by
  refine ⟨?_, ?_, ?_⟩
  · rw [installStore_eq]
    split
    · exact hInv
    · intro hne
      exact List.mem_append_left _ (hInv hne)
  · intro hok
    unfold UninstallVersion at hok
    by_cases hact : st.activeVersion = v
    · rw [if_pos hact] at hok
      cases hok
    · rw [if_neg hact] at hok
      by_cases hd : st.diskDirs.contains v = true
      · rw [if_neg (not_not_intro hd)] at hok
        cases hok
        intro hne
        exact (List.mem_erase_of_ne hact).mpr (hInv hne)
      · rw [if_pos (by simpa using hd)] at hok
        cases hok
  · intro hok hw
    unfold SetActiveVersion UseVersionPosix at hok
    by_cases hd : st.diskDirs.contains w = true
    · rw [if_neg (not_not_intro hd), if_neg (not_not_intro hd)] at hok
      cases hok
      intro _
      exact hw
    · rw [if_pos (by simpa using hd)] at hok
      cases hok

theorem C5_witness :
    StoreInvariant (installStore "18.17.0" ⟨"/r", [], "", [], none⟩) :=
  ( C5_theorem ⟨"/r", [], "", [], none⟩ ⟨"/r", [], "", [], none⟩ ⟨"/r", [], "", [], none⟩
    "18.17.0" "x" "y" (by decide)).1

/-- C6 amended: when the download completes, the archive in temporary
    storage is removed whether or not extraction succeeds afterwards;
    but when the download itself fails partway (the transfer error case,
    after the file was created), the partial archive is left behind. -/
theorem C6_theorem (version : String) (dl : DownloadOutcome) (extractOk : Bool)
    (st : Store) (tmp : List String)
    (hfresh : st.installedVersions.contains (trimPrefixStr version "v") = false) :
    (dl = .success →
      (InstallNodeVersion "linux" "amd64" version dl .success extractOk st tmp).temp.contains
        (linuxX64ArchivePath version) = false)
    ∧ (dl = .transferError →
      (InstallNodeVersion "linux" "amd64" version dl .success extractOk st tmp).temp.contains
        (linuxX64ArchivePath version) = true) := by
  constructor
  · rintro rfl
    unfold InstallNodeVersion
    rw [if_neg (by rw [hfresh]; exact Bool.false_ne_true)]
    simp only [detectSystemInfo_linux_amd64, DownloadFile]
    by_cases he : extractOk = true
    · rw [if_neg (not_not_intro he)]
      exact removeTemp_contains_self _ _
    · rw [if_pos (by simpa using he)]
      exact removeTemp_contains_self _ _
  · rintro rfl
    unfold InstallNodeVersion
    rw [if_neg (by rw [hfresh]; exact Bool.false_ne_true)]
    simp only [detectSystemInfo_linux_amd64, DownloadFile]
    rw [if_neg (by decide : ¬ (("linux" : String) = "windows" ∧ True))]
    exact insertTemp_contains_self _ _

theorem C6_witness :
    (InstallNodeVersion "linux" "amd64" "18.17.0" .success .success true
        ⟨"/r", [], "", [], none⟩ []).temp.contains (linuxX64ArchivePath "18.17.0") = false :=
  ( C6_theorem "18.17.0" .success true ⟨"/r", [], "", [], none⟩ [] (by decide)).1 rfl

/-- C10: installing any v-prefixed token records the v-stripped
    identifier in the installed set while naming the on-disk directory
    with the unmodified token, so the two differ, and activating the
    recorded identifier afterwards fails with a not-installed error. -/
theorem C10_theorem (st : Store) (token : String)
    (hv : hasPrefixStr token "v" = true)
    (h1 : trimPrefixStr token "v" ∉ st.installedVersions)
    (h2 : trimPrefixStr token "v" ∉ st.diskDirs) :
    trimPrefixStr token "v" ∈ (installStore token st).installedVersions
    ∧ token ∈ (installStore token st).diskDirs
    ∧ trimPrefixStr token "v" ≠ token
    ∧ SetActiveVersion (trimPrefixStr token "v") (installStore token st) =
        .error ("version " ++ trimPrefixStr token "v" ++ " is not installed") := by
  have hne : trimPrefixStr token "v" ≠ token := by
    have hp : ("v".data).isPrefixOf token.data = true := hv
    rw [ List.isPrefixOf_iff_prefix] at hp
    rcases hp with ⟨rest, hrest⟩
    have hdata : token.data = 'v' :: rest := hrest.symm
    have htrim : trimPrefixStr token "v" = ⟨token.data.drop 1⟩ := by
      unfold trimPrefixStr
      rw [if_pos (show ("v".data.isPrefixOf token.data) = true from hv)]
      rfl
    intro hcontra
    rw [htrim] at hcontra
    have h3 : token.data.drop 1 = token.data := congrArg String.data hcontra
    rw [hdata] at h3
    have h4 := congrArg List.length h3
    simp at h4
  have hmain := installStore_eq token st
  rw [if_neg (show ¬ (st.installedVersions.contains (trimPrefixStr token "v") = true) from
    fun hc => h1 ((containsStr_iff _ _).mp hc))] at hmain
  refine ⟨?_, ?_, hne, ?_⟩
  · rw [hmain]
    exact List.mem_append_right _ (List.mem_singleton.mpr rfl)
  · rw [hmain]
    split
    · exact (containsStr_iff _ _).mp (by assumption)
    · exact List.mem_cons_self _ _
  · have hnotin : trimPrefixStr token "v" ∉ (installStore token st).diskDirs := by
      rw [hmain]
      split
      · exact h2
      · intro hmem
        rcases List.mem_cons.mp hmem with hc | hc
        · exact hne hc
        · exact h2 hc
    unfold SetActiveVersion
    rw [if_pos (show ¬ ((installStore token st).diskDirs.contains
        (trimPrefixStr token "v") = true) from
      fun hc => hnotin ((containsStr_iff _ _).mp hc))]

theorem C10_witness :
    trimPrefixStr "v18.17.0" "v" ∈ (installStore "v18.17.0" ⟨"/r", [], "", [], none⟩).installedVersions
    ∧ "v18.17.0" ∈ (installStore "v18.17.0" ⟨"/r", [], "", [], none⟩).diskDirs
    ∧ trimPrefixStr "v18.17.0" "v" ≠ "v18.17.0"
    ∧ SetActiveVersion (trimPrefixStr "v18.17.0" "v")
        (installStore "v18.17.0" ⟨"/r", [], "", [], none⟩) =
        .error ("version " ++ trimPrefixStr "v18.17.0" "v" ++ " is not installed") :=
  C10_theorem ⟨"/r", [], "", [], none⟩ "v18.17.0" (by decide) (by decide) (by decide)

lemma spec_cons_same (x : Int) (xs ys : List Int) :
    SpecSortsBefore (x :: xs) (x :: ys) ↔ SpecSortsBefore xs ys := by
  constructor
  · rintro (⟨k, hpre, a, b, ha, hb, hab⟩ | ⟨hp, hne⟩)
    · cases k with
      | zero =>
        rw [List.get?_cons_zero] at ha hb
        injection ha with ha
        injection hb with hb
        subst ha
        subst hb
        exact absurd hab (lt_irrefl x)
      | succ k =>
        rw [List.get?_cons_succ] at ha hb
        left
        refine ⟨k, ?_, a, b, ha, hb, hab⟩
        intro j hj
        have := hpre (j + 1) (by omega)
        rwa [List.get?_cons_succ, List.get?_cons_succ] at this
    · right
      rw [ List.cons_prefix_cons] at hp
      exact ⟨hp.2, fun h => hne (by rw [h])⟩
  · rintro (⟨k, hpre, a, b, ha, hb, hab⟩ | ⟨hp, hne⟩)
    · left
      refine ⟨k + 1, ?_, a, b, by rwa [List.get?_cons_succ], by rwa [List.get?_cons_succ], hab⟩
      intro j hj
      cases j with
      | zero => rfl
      | succ j =>
        rw [List.get?_cons_succ, List.get?_cons_succ]
        exact hpre j (by omega)
    · right
      refine ⟨ List.cons_prefix_cons.mpr ⟨rfl, hp⟩, ?_⟩
      intro h
      injection h with _ h2
      exact hne h2
  -- the two directions above mirror each other on the shifted index

lemma spec_cons_ne (x y : Int) (xs ys : List Int) (hxy : x ≠ y) :
    SpecSortsBefore (x :: xs) (y :: ys) ↔ y < x := by
  constructor
  · rintro (⟨k, hpre, a, b, ha, hb, hab⟩ | ⟨hp, hne⟩)
    · cases k with
      | zero =>
        rw [List.get?_cons_zero] at ha hb
        injection ha with ha
        injection hb with hb
        subst ha
        subst hb
        exact hab
      | succ k =>
        have := hpre 0 (by omega)
        rw [List.get?_cons_zero, List.get?_cons_zero] at this
        injection this with this
        exact absurd this hxy
    · rw [ List.cons_prefix_cons] at hp
      exact absurd hp.1.symm hxy
  · intro h
    exact Or.inl ⟨0, fun j hj => absurd hj (Nat.not_lt_zero j), x, y, rfl, rfl, h⟩

lemma versionLessLoop_iff (xs ys : List Int) :
    versionLessLoop xs ys = true ↔ SpecSortsBefore xs ys := by
  induction xs generalizing ys with
  | nil =>
    cases ys with
    | nil =>
      simp [versionLessLoop, SpecSortsBefore]
    | cons y ys =>
      simp [versionLessLoop, SpecSortsBefore]
  | cons x xs ih =>
    cases ys with
    | nil =>
      constructor
      · intro _
        exact Or.inr ⟨ List.nil_prefix, by simp⟩
      · intro _
        simp [versionLessLoop]
    | cons y ys =>
      by_cases hxy : x = y
      · subst hxy
        have hstep : versionLessLoop (x :: xs) (x :: ys) = versionLessLoop xs ys := by
          simp [versionLessLoop]
        rw [hstep, spec_cons_same]
        exact ih ys
      · have hstep : versionLessLoop (x :: xs) (y :: ys) = decide (x > y) := by
          simp [versionLessLoop, hxy]
        rw [hstep, spec_cons_ne x y xs ys hxy]
        exact decide_eq_true_iff

/-- C8: the sort.Slice comparator of the index client orders two
    versions exactly as the specification describes — by numeric
    comparison of the extracted dot-separated components, descending,
    with a strict numeric prefix sorting as older than the longer
    version. -/
theorem C8_theorem (v w : NodeVersion) :
    versionLess v w = true ↔
      SpecSortsBefore (extractVersionNumbers v.version) (extractVersionNumbers w.version) :=
  versionLessLoop_iff _ _

lemma statFs_map_overwrite (fs : FileSys) (p c q : String) (h : q ≠ p) :
    statFs (fs.map (fun e => if e.1 == p then (p, c) else e)) q = statFs fs q := by
  induction fs with
  | nil => rfl
  | cons e fs ih =>
    simp only [List.map_cons, statFs, List.any_cons] at *
    by_cases he : (e.1 == p) = true
    · have h1 : (p == q) = false := beq_eq_false_iff_ne.mpr (Ne.symm h)
      have h2 : (e.1 == q) = false :=
        beq_eq_false_iff_ne.mpr (by rw [eq_of_beq he]; exact Ne.symm h)
      rw [if_pos he]
      simp only [h1, h2, Bool.false_or]
      exact ih
    · rw [if_neg he]
      rw [ih]

lemma statFs_append_single (fs : FileSys) (p c q : String) (h : q ≠ p) :
    statFs (fs ++ [(p, c)]) q = statFs fs q := by
  simp only [statFs, List.any_append, List.any_cons, List.any_nil]
  rw [beq_eq_false_iff_ne.mpr (Ne.symm h)]
  simp

lemma statFs_writeFs_of_ne (fs : FileSys) (p c q : String) (h : q ≠ p) :
    statFs (writeFs fs p c) q = statFs fs q := by
  unfold writeFs
  split
  · exact statFs_map_overwrite fs p c q h
  · exact statFs_append_single fs p c q h

lemma statFs_map_overwrite_self (fs : FileSys) (p c : String) (h : statFs fs p = true) :
    statFs (fs.map (fun e => if e.1 == p then (p, c) else e)) p = true := by
  induction fs with
  | nil => exact absurd h (by simp [statFs])
  | cons e fs ih =>
    simp only [List.map_cons, statFs, List.any_cons] at *
    by_cases he : (e.1 == p) = true
    · rw [if_pos he]
      simp
    · rw [if_neg he]
      have heF : (e.1 == p) = false := by simpa using he
      rw [heF] at h ⊢
      simp only [Bool.false_or] at h ⊢
      exact ih h

lemma statFs_writeFs_self (fs : FileSys) (p c : String) :
    statFs (writeFs fs p c) p = true := by
  unfold writeFs
  split
  · exact statFs_map_overwrite_self fs p c (by assumption)
  · simp [statFs, List.any_append]

lemma allKey_writeFs_self (fs : FileSys) (p c : String) : allKey (writeFs fs p c) p c := by
  unfold writeFs
  split
  · intro e he _
    rcases List.mem_map.mp he with ⟨e0, _, rfl⟩
    by_cases h0 : (e0.1 == p) = true
    · rw [if_pos h0]
    · rw [if_neg h0] at *
      rename_i hkey
      exact absurd hkey (beq_eq_false_iff_ne.mp (Bool.not_eq_true _ ▸ eq_false_of_ne_true h0))
  · rename_i hstat
    intro e he hkey
    rcases List.mem_append.mp he with h1 | h1
    · exfalso
      exact hstat (List.any_eq_true.mpr ⟨e, h1, by simp [hkey]⟩)
    · simpa using h1

lemma allKey_writeFs_of_ne (fs : FileSys) (p c q c2 : String) (h : q ≠ p)
    (hk : allKey fs p c) : allKey (writeFs fs q c2) p c := by
  unfold writeFs
  split
  · intro e he hkey
    rcases List.mem_map.mp he with ⟨e0, he0, rfl⟩
    by_cases h0 : (e0.1 == q) = true
    · rw [if_pos h0] at hkey ⊢
      exact absurd hkey h
    · rw [if_neg h0] at hkey ⊢
      exact hk e0 he0 hkey
  · intro e he hkey
    rcases List.mem_append.mp he with h1 | h1
    · exact hk e h1 hkey
    · rw [List.mem_singleton.mp h1] at hkey
      exact absurd hkey h

lemma map_overwrite_eq_of_allKey (fs : FileSys) (p c : String) (hk : allKey fs p c) :
    fs.map (fun e => if e.1 == p then (p, c) else e) = fs := by
  induction fs with
  | nil => rfl
  | cons e fs ih =>
    have htail : allKey fs p c := fun e2 he2 => hk e2 (List.mem_cons_of_mem e he2)
    have hhead : (p, c) = e ∨ ¬ ((e.1 == p) = true) := by
      by_cases h0 : (e.1 == p) = true
      · exact Or.inl (hk e (List.mem_cons_self e fs) (eq_of_beq h0)).symm
      · exact Or.inr h0
    simp only [List.map_cons]
    rw [ih htail]
    rcases hhead with hh | hh
    · by_cases h0 : (e.1 == p) = true
      · rw [if_pos h0, hh]
      · rw [if_neg h0]
    · rw [if_neg hh]

lemma writeFs_eq_of_allKey (fs : FileSys) (p c : String)
    (hstat : statFs fs p = true) (hk : allKey fs p c) : writeFs fs p c = fs := by
  unfold writeFs
  rw [if_pos hstat]
  exact map_overwrite_eq_of_allKey fs p c hk

lemma walkFind_map_overwrite (fs : FileSys) (p c root : String)
    (h : hasPrefixStr p (root ++ "/") = false) :
    walkFindNodeExe (fs.map (fun e => if e.1 == p then (p, c) else e)) root =
      walkFindNodeExe fs root := by
  induction fs with
  | nil => rfl
  | cons e fs ih =>
    by_cases h0 : (e.1 == p) = true
    · have he1 : e.1 = p := eq_of_beq h0
      simp only [walkFindNodeExe, List.map_cons, List.find?_cons, if_pos h0] at *
      rw [show (hasPrefixStr p (root ++ "/") && (baseName p == "node.exe")) = false by
        rw [h]; rfl]
      rw [show (hasPrefixStr e.1 (root ++ "/") && (baseName e.1 == "node.exe")) = false by
        rw [he1, h]; rfl]
      exact ih
    · simp only [walkFindNodeExe, List.map_cons, List.find?_cons, if_neg h0] at *
      by_cases hp : (hasPrefixStr e.1 (root ++ "/") && (baseName e.1 == "node.exe")) = true
      · rw [hp]
      · rw [show (hasPrefixStr e.1 (root ++ "/") && (baseName e.1 == "node.exe")) = false by
          simpa using hp]
        exact ih

lemma walkFind_append_single (fs : FileSys) (p c root : String)
    (h : hasPrefixStr p (root ++ "/") = false) :
    walkFindNodeExe (fs ++ [(p, c)]) root = walkFindNodeExe fs root := by
  induction fs with
  | nil =>
    simp only [walkFindNodeExe, List.nil_append, List.find?_cons]
    rw [show (hasPrefixStr p (root ++ "/") && (baseName p == "node.exe")) = false by
      rw [h]; rfl]
  | cons e fs ih =>
    simp only [walkFindNodeExe, List.cons_append, List.find?_cons] at *
    by_cases hp : (hasPrefixStr e.1 (root ++ "/") && (baseName e.1 == "node.exe")) = true
    · rw [hp]
    · rw [show (hasPrefixStr e.1 (root ++ "/") && (baseName e.1 == "node.exe")) = false by
        simpa using hp]
      exact ih

lemma walkFind_writeFs (fs : FileSys) (p c root : String)
    (h : hasPrefixStr p (root ++ "/") = false) :
    walkFindNodeExe (writeFs fs p c) root = walkFindNodeExe fs root := by
  unfold writeFs
  split
  · exact walkFind_map_overwrite fs p c root h
  · exact walkFind_append_single fs p c root h

lemma ShimWrites.statFs_eq {ps : List String} {fs fs2 : FileSys}
    (h : ShimWrites ps fs fs2) (q : String) (hq : ∀ p ∈ ps, q ≠ p) :
    statFs fs2 q = statFs fs q := by
  induction h with
  | refl => rfl
  | step fsX p c hp _ ih =>
    rw [statFs_writeFs_of_ne _ _ _ _ (hq p hp), ih]

lemma ShimWrites.walkFind_eq {ps : List String} {fs fs2 : FileSys}
    (h : ShimWrites ps fs fs2) (root : String)
    (hps : ∀ p ∈ ps, hasPrefixStr p (root ++ "/") = false) :
    walkFindNodeExe fs2 root = walkFindNodeExe fs root := by
  induction h with
  | refl => rfl
  | step fsX p c hp _ ih =>
    rw [walkFind_writeFs _ _ _ _ (hps p hp), ih]

lemma hasPrefixStr_iff (s pre : String) : hasPrefixStr s pre = true ↔ pre.data <+: s.data := by
  simp [hasPrefixStr, List.isPrefixOf_iff_prefix]

lemma pathUnder_prefix (d n : String) : hasPrefixStr (pathUnder d n) (d ++ "/") = true := by
  rw [hasPrefixStr_iff]
  exact ⟨n.data, by simp [pathUnder, String.data_append]⟩

lemma pathUnder_bin_prefix (d n : String) :
    hasPrefixStr (pathUnder (d ++ "/bin") n) (d ++ "/") = true := by
  rw [hasPrefixStr_iff]
  refine ⟨("bin/" ++ n).data, ?_⟩
  simp [pathUnder, String.data_append, List.append_assoc]

lemma pathUnder_ne (d a b : String) (hab : a ≠ b) : pathUnder d a ≠ pathUnder d b := by
  intro h
  apply hab
  have hd := congrArg String.data h
  simp only [pathUnder, String.data_append] at hd
  exact String.ext (List.append_cancel_left hd)

lemma locate_eq_of_SW {shimDir : String} {fs fs2 : FileSys} (nodeBinPath : String)
    (hSW : ShimWrites (shimPaths shimDir) fs fs2)
    (hp1 : ∀ p ∈ shimPaths shimDir, hasPrefixStr p (nodeBinPath ++ "/") = false) :
    locateNodeBinPath fs2 nodeBinPath = locateNodeBinPath fs nodeBinPath := by
  have hq1 : statFs fs2 (pathUnder nodeBinPath "node.exe") =
      statFs fs (pathUnder nodeBinPath "node.exe") :=
    hSW.statFs_eq _ (fun p hp heq => by
      have h1 := hp1 p hp
      rw [← heq, pathUnder_prefix] at h1
      cases h1)
  have hq2 : statFs fs2 (pathUnder (nodeBinPath ++ "/bin") "node.exe") =
      statFs fs (pathUnder (nodeBinPath ++ "/bin") "node.exe") :=
    hSW.statFs_eq _ (fun p hp heq => by
      have h1 := hp1 p hp
      rw [← heq, pathUnder_bin_prefix] at h1
      cases h1)
  have hw := hSW.walkFind_eq nodeBinPath hp1
  simp only [locateNodeBinPath]
  rw [hq1, hq2, hw]

lemma find?_triple {α : Type} (f : α → Bool) (a b c : α) :
    List.find? f [a, b, c] =
      if f a then some a else if f b then some b else if f c then some c else none := by
  cases hfa : f a <;> cases hfb : f b <;> cases hfc : f c <;>
    simp [List.find?_cons, hfa, hfb, hfc]

lemma find?_stat_triple (fsX : FileSys) (nbp2 a b c : String) :
    List.find? (fun alt => statFs fsX (pathUnder nbp2 alt)) [a, b, c] =
      if statFs fsX (pathUnder nbp2 a) then some a
      else if statFs fsX (pathUnder nbp2 b) then some b
      else if statFs fsX (pathUnder nbp2 c) then some c else none :=
  find?_triple _ a b c

lemma shimPlan_congr (fsA fsB : FileSys) (nbp2 b : String) (hb : b ∈ shimBinaries)
    (h : ∀ m ∈ shimReadNames, statFs fsA (pathUnder nbp2 m) = statFs fsB (pathUnder nbp2 m)) :
    shimPlan fsA nbp2 b = shimPlan fsB nbp2 b := by
  rcases (by simpa [shimBinaries] using hb :
      b = "node.exe" ∨ b = "npm.cmd" ∨ b = "npx.cmd") with rfl | rfl | rfl
  · simp only [shimPlan]
    rw [h "node.exe" (by simp [shimReadNames])]
    by_cases hstat : statFs fsB (pathUnder nbp2 "node.exe") = true
    · rw [if_pos hstat, if_pos hstat]
    · rw [if_neg hstat, if_neg hstat,
        if_neg (by decide :
          ¬ ((("node.exe" : String) == "npm.cmd" || ("node.exe" : String) == "npx.cmd") = true)),
        if_neg (by decide :
          ¬ ((("node.exe" : String) == "npm.cmd" || ("node.exe" : String) == "npx.cmd") = true))]
  · simp only [shimPlan]
    rw [h "npm.cmd" (by simp [shimReadNames])]
    by_cases hstat : statFs fsB (pathUnder nbp2 "npm.cmd") = true
    · rw [if_pos hstat, if_pos hstat]
    · rw [if_neg hstat, if_neg hstat]
      rw [show trimSuffixStr "npm.cmd" ".cmd" = "npm" from by decide]
      rw [show ("npm" ++ ".bat" : String) = "npm.bat" from by decide]
      rw [find?_stat_triple, find?_stat_triple]
      rw [h "npm" (by simp [shimReadNames]), h "npm.bat" (by simp [shimReadNames])]
  · simp only [shimPlan]
    rw [h "npx.cmd" (by simp [shimReadNames])]
    by_cases hstat : statFs fsB (pathUnder nbp2 "npx.cmd") = true
    · rw [if_pos hstat, if_pos hstat]
    · rw [if_neg hstat, if_neg hstat]
      rw [show trimSuffixStr "npx.cmd" ".cmd" = "npx" from by decide]
      rw [show ("npx" ++ ".bat" : String) = "npx.bat" from by decide]
      rw [find?_stat_triple, find?_stat_triple]
      rw [h "npx" (by simp [shimReadNames]), h "npx.bat" (by simp [shimReadNames])]

lemma shimStep_of_plan_some (fsX : FileSys) (nbp2 shimDir b c : String)
    (h : shimPlan fsX nbp2 b = some c) :
    shimStep nbp2 shimDir fsX b = writeFs fsX (pathUnder shimDir b) c := by
  unfold shimStep
  rw [h]

lemma shimStep_of_plan_none (fsX : FileSys) (nbp2 shimDir b : String)
    (h : shimPlan fsX nbp2 b = none) :
    shimStep nbp2 shimDir fsX b = fsX := by
  unfold shimStep
  rw [h]

lemma statFs_shimStep_of_ne (fsX : FileSys) (nbp2 shimDir b q : String)
    (h : q ≠ pathUnder shimDir b) :
    statFs (shimStep nbp2 shimDir fsX b) q = statFs fsX q := by
  unfold shimStep
  cases shimPlan fsX nbp2 b with
  | none => rfl
  | some c => exact statFs_writeFs_of_ne _ _ _ _ h

lemma allKey_shimStep_of_ne (fsX : FileSys) (nbp2 shimDir b p c : String)
    (h : pathUnder shimDir b ≠ p) (hk : allKey fsX p c) :
    allKey (shimStep nbp2 shimDir fsX b) p c := by
  unfold shimStep
  cases shimPlan fsX nbp2 b with
  | none => exact hk
  | some c2 => exact allKey_writeFs_of_ne _ _ _ _ _ h hk

lemma shimStep_SW {shimDir : String} {fs fsAcc : FileSys}
    (hacc : ShimWrites (shimPaths shimDir) fs fsAcc) (nbp2 b : String)
    (hb : b ∈ shimBinaries) :
    ShimWrites (shimPaths shimDir) fs (shimStep nbp2 shimDir fsAcc b) := by
  unfold shimStep
  cases shimPlan fsAcc nbp2 b with
  | none => exact hacc
  | some c => exact .step _ _ _ _ (List.mem_map_of_mem _ hb) hacc

lemma CreateWindowsShims_SW (fs : FileSys) (nodeBinPath shimDir : String) :
    ShimWrites (shimPaths shimDir) fs (CreateWindowsShims nodeBinPath shimDir fs) := by
  simp only [CreateWindowsShims]
  have h3 : ShimWrites (shimPaths shimDir) fs
      (List.foldl (shimStep (locateNodeBinPath fs nodeBinPath) shimDir) fs shimBinaries) := by
    simp only [shimBinaries, List.foldl_cons, List.foldl_nil]
    exact shimStep_SW (shimStep_SW (shimStep_SW (.refl fs) _ _ (by simp [shimBinaries]))
      _ _ (by simp [shimBinaries])) _ _ (by simp [shimBinaries])
  split
  · exact h3
  · exact .step _ _ _ _ (by simp [shimPaths, shimBinaries, pathUnder]) h3

theorem C1_witness :
    actionTargetGuarded "/d" (FsAction.createFile "/d/a/b.txt" "hi" 420) = true :=
  C1_theorem.1 "/d" "root" ⟨"root/a/b.txt", false, 420, "hi"⟩
    (FsAction.createFile "/d/a/b.txt" "hi" 420) (by decide)

lemma SetActiveVersion_of_contains (v : String) (st : Store)
    (hv : st.diskDirs.contains v = true) :
    SetActiveVersion v st =
      .ok { st with currentLink := some (joinPath st.installPath v), activeVersion := v } := by
  unfold SetActiveVersion UseVersionPosix
  rw [if_neg (not_not_intro hv), if_neg (not_not_intro hv)]

lemma CreateWindowsShims_idem (fs : FileSys) (nodeBinPath shimDir : String)
    (hp1 : ∀ p ∈ shimPaths shimDir, hasPrefixStr p (nodeBinPath ++ "/") = false)
    (hp2 : ∀ p ∈ shimPaths shimDir, ∀ m ∈ shimReadNames,
        p ≠ pathUnder (locateNodeBinPath fs nodeBinPath) m) :
    CreateWindowsShims nodeBinPath shimDir (CreateWindowsShims nodeBinPath shimDir fs)
      = CreateWindowsShims nodeBinPath shimDir fs := by
  set nbp2 := locateNodeBinPath fs nodeBinPath with hnbp2
  have hb1 : ("node.exe" : String) ∈ shimBinaries := by simp [shimBinaries]
  have hb2 : ("npm.cmd" : String) ∈ shimBinaries := by simp [shimBinaries]
  have hb3 : ("npx.cmd" : String) ∈ shimBinaries := by simp [shimBinaries]
  have hreads : ∀ (fsX : FileSys), ShimWrites (shimPaths shimDir) fs fsX →
      ∀ m ∈ shimReadNames, statFs fsX (pathUnder nbp2 m) = statFs fs (pathUnder nbp2 m) :=
    fun fsX hX m hm => hX.statFs_eq _ (fun p hp => Ne.symm (hp2 p hp m hm))
  have hexp : CreateWindowsShims nodeBinPath shimDir fs =
      (if statFs (shimStep nbp2 shimDir (shimStep nbp2 shimDir
            (shimStep nbp2 shimDir fs "node.exe") "npm.cmd") "npx.cmd")
          (pathUnder shimDir "node.exe") = true
       then shimStep nbp2 shimDir (shimStep nbp2 shimDir
            (shimStep nbp2 shimDir fs "node.exe") "npm.cmd") "npx.cmd"
       else writeFs (shimStep nbp2 shimDir (shimStep nbp2 shimDir
            (shimStep nbp2 shimDir fs "node.exe") "npm.cmd") "npx.cmd")
          (pathUnder shimDir "node.exe") errorShimContent) := by
    simp only [CreateWindowsShims, shimBinaries, List.foldl_cons, List.foldl_nil]
  have factNode : ∀ cn, shimPlan fs nbp2 "node.exe" = some cn →
      statFs (CreateWindowsShims nodeBinPath shimDir fs) (pathUnder shimDir "node.exe") = true
      ∧ allKey (CreateWindowsShims nodeBinPath shimDir fs) (pathUnder shimDir "node.exe") cn := by
    intro cn hpn
    have hA1 : shimStep nbp2 shimDir fs "node.exe" =
        writeFs fs (pathUnder shimDir "node.exe") cn :=
      shimStep_of_plan_some _ _ _ _ _ hpn
    have stat1 : statFs (shimStep nbp2 shimDir fs "node.exe")
        (pathUnder shimDir "node.exe") = true := by
      rw [hA1]
      exact statFs_writeFs_self _ _ _
    have key1 : allKey (shimStep nbp2 shimDir fs "node.exe")
        (pathUnder shimDir "node.exe") cn := by
      rw [hA1]
      exact allKey_writeFs_self _ _ _
    have stat2 : statFs (shimStep nbp2 shimDir (shimStep nbp2 shimDir fs "node.exe") "npm.cmd")
        (pathUnder shimDir "node.exe") = true := by
      rw [statFs_shimStep_of_ne _ _ _ _ _ (pathUnder_ne shimDir "node.exe" "npm.cmd" (by decide))]
      exact stat1
    have key2 : allKey (shimStep nbp2 shimDir (shimStep nbp2 shimDir fs "node.exe") "npm.cmd")
        (pathUnder shimDir "node.exe") cn :=
      allKey_shimStep_of_ne _ _ _ _ _ _ (pathUnder_ne shimDir "npm.cmd" "node.exe" (by decide)) key1
    have stat3 : statFs (shimStep nbp2 shimDir (shimStep nbp2 shimDir
        (shimStep nbp2 shimDir fs "node.exe") "npm.cmd") "npx.cmd")
        (pathUnder shimDir "node.exe") = true := by
      rw [statFs_shimStep_of_ne _ _ _ _ _ (pathUnder_ne shimDir "node.exe" "npx.cmd" (by decide))]
      exact stat2
    have key3 : allKey (shimStep nbp2 shimDir (shimStep nbp2 shimDir
        (shimStep nbp2 shimDir fs "node.exe") "npm.cmd") "npx.cmd")
        (pathUnder shimDir "node.exe") cn :=
      allKey_shimStep_of_ne _ _ _ _ _ _ (pathUnder_ne shimDir "npx.cmd" "node.exe" (by decide)) key2
    rw [hexp, if_pos stat3]
    exact ⟨stat3, key3⟩
  have factNpm : ∀ cm, shimPlan fs nbp2 "npm.cmd" = some cm →
      statFs (CreateWindowsShims nodeBinPath shimDir fs) (pathUnder shimDir "npm.cmd") = true
      ∧ allKey (CreateWindowsShims nodeBinPath shimDir fs) (pathUnder shimDir "npm.cmd") cm := by
    intro cm hpm
    have hSWA1 : ShimWrites (shimPaths shimDir) fs (shimStep nbp2 shimDir fs "node.exe") :=
      shimStep_SW (.refl fs) _ _ hb1
    have hplan1 : shimPlan (shimStep nbp2 shimDir fs "node.exe") nbp2 "npm.cmd" =
        shimPlan fs nbp2 "npm.cmd" :=
      shimPlan_congr _ _ _ _ hb2 (hreads _ hSWA1)
    have hA2 : shimStep nbp2 shimDir (shimStep nbp2 shimDir fs "node.exe") "npm.cmd" =
        writeFs (shimStep nbp2 shimDir fs "node.exe") (pathUnder shimDir "npm.cmd") cm :=
      shimStep_of_plan_some _ _ _ _ _ (hplan1.trans hpm)
    have stat2 : statFs (shimStep nbp2 shimDir (shimStep nbp2 shimDir fs "node.exe") "npm.cmd")
        (pathUnder shimDir "npm.cmd") = true := by
      rw [hA2]
      exact statFs_writeFs_self _ _ _
    have key2 : allKey (shimStep nbp2 shimDir (shimStep nbp2 shimDir fs "node.exe") "npm.cmd")
        (pathUnder shimDir "npm.cmd") cm := by
      rw [hA2]
      exact allKey_writeFs_self _ _ _
    have stat3 : statFs (shimStep nbp2 shimDir (shimStep nbp2 shimDir
        (shimStep nbp2 shimDir fs "node.exe") "npm.cmd") "npx.cmd")
        (pathUnder shimDir "npm.cmd") = true := by
      rw [statFs_shimStep_of_ne _ _ _ _ _ (pathUnder_ne shimDir "npm.cmd" "npx.cmd" (by decide))]
      exact stat2
    have key3 : allKey (shimStep nbp2 shimDir (shimStep nbp2 shimDir
        (shimStep nbp2 shimDir fs "node.exe") "npm.cmd") "npx.cmd")
        (pathUnder shimDir "npm.cmd") cm :=
      allKey_shimStep_of_ne _ _ _ _ _ _ (pathUnder_ne shimDir "npx.cmd" "npm.cmd" (by decide)) key2
    by_cases hfbs : statFs (shimStep nbp2 shimDir (shimStep nbp2 shimDir
        (shimStep nbp2 shimDir fs "node.exe") "npm.cmd") "npx.cmd")
        (pathUnder shimDir "node.exe") = true
    · rw [hexp, if_pos hfbs]
      exact ⟨stat3, key3⟩
    · rw [hexp, if_neg hfbs]
      constructor
      · rw [statFs_writeFs_of_ne _ _ _ _ (pathUnder_ne shimDir "npm.cmd" "node.exe" (by decide))]
        exact stat3
      · exact allKey_writeFs_of_ne _ _ _ _ _
          (pathUnder_ne shimDir "node.exe" "npm.cmd" (by decide)) key3
  have factNpx : ∀ cx, shimPlan fs nbp2 "npx.cmd" = some cx →
      statFs (CreateWindowsShims nodeBinPath shimDir fs) (pathUnder shimDir "npx.cmd") = true
      ∧ allKey (CreateWindowsShims nodeBinPath shimDir fs) (pathUnder shimDir "npx.cmd") cx := by
    intro cx hpx
    have hSWA2 : ShimWrites (shimPaths shimDir) fs
        (shimStep nbp2 shimDir (shimStep nbp2 shimDir fs "node.exe") "npm.cmd") :=
      shimStep_SW (shimStep_SW (.refl fs) _ _ hb1) _ _ hb2
    have hplan2 : shimPlan (shimStep nbp2 shimDir (shimStep nbp2 shimDir fs "node.exe")
        "npm.cmd") nbp2 "npx.cmd" = shimPlan fs nbp2 "npx.cmd" :=
      shimPlan_congr _ _ _ _ hb3 (hreads _ hSWA2)
    have hA3 : shimStep nbp2 shimDir (shimStep nbp2 shimDir
        (shimStep nbp2 shimDir fs "node.exe") "npm.cmd") "npx.cmd" =
        writeFs (shimStep nbp2 shimDir (shimStep nbp2 shimDir fs "node.exe") "npm.cmd")
          (pathUnder shimDir "npx.cmd") cx :=
      shimStep_of_plan_some _ _ _ _ _ (hplan2.trans hpx)
    have stat3 : statFs (shimStep nbp2 shimDir (shimStep nbp2 shimDir
        (shimStep nbp2 shimDir fs "node.exe") "npm.cmd") "npx.cmd")
        (pathUnder shimDir "npx.cmd") = true := by
      rw [hA3]
      exact statFs_writeFs_self _ _ _
    have key3 : allKey (shimStep nbp2 shimDir (shimStep nbp2 shimDir
        (shimStep nbp2 shimDir fs "node.exe") "npm.cmd") "npx.cmd")
        (pathUnder shimDir "npx.cmd") cx := by
      rw [hA3]
      exact allKey_writeFs_self _ _ _
    by_cases hfbs : statFs (shimStep nbp2 shimDir (shimStep nbp2 shimDir
        (shimStep nbp2 shimDir fs "node.exe") "npm.cmd") "npx.cmd")
        (pathUnder shimDir "node.exe") = true
    · rw [hexp, if_pos hfbs]
      exact ⟨stat3, key3⟩
    · rw [hexp, if_neg hfbs]
      constructor
      · rw [statFs_writeFs_of_ne _ _ _ _ (pathUnder_ne shimDir "npx.cmd" "node.exe" (by decide))]
        exact stat3
      · exact allKey_writeFs_of_ne _ _ _ _ _
          (pathUnder_ne shimDir "node.exe" "npx.cmd" (by decide)) key3
  have factB : statFs (CreateWindowsShims nodeBinPath shimDir fs)
      (pathUnder shimDir "node.exe") = true := by
    by_cases hfbs : statFs (shimStep nbp2 shimDir (shimStep nbp2 shimDir
        (shimStep nbp2 shimDir fs "node.exe") "npm.cmd") "npx.cmd")
        (pathUnder shimDir "node.exe") = true
    · rw [hexp, if_pos hfbs]
      exact hfbs
    · rw [hexp, if_neg hfbs]
      exact statFs_writeFs_self _ _ _
  have hSWfs1 : ShimWrites (shimPaths shimDir) fs (CreateWindowsShims nodeBinPath shimDir fs) :=
    CreateWindowsShims_SW fs nodeBinPath shimDir
  have hloc1 : locateNodeBinPath (CreateWindowsShims nodeBinPath shimDir fs) nodeBinPath =
      nbp2 :=
    locate_eq_of_SW nodeBinPath hSWfs1 hp1
  have hplanB : ∀ b ∈ shimBinaries,
      shimPlan (CreateWindowsShims nodeBinPath shimDir fs) nbp2 b = shimPlan fs nbp2 b :=
    fun b hb => shimPlan_congr _ _ _ _ hb (hreads _ hSWfs1)
  have hB1 : shimStep nbp2 shimDir (CreateWindowsShims nodeBinPath shimDir fs) "node.exe" =
      CreateWindowsShims nodeBinPath shimDir fs := by
    cases hpn : shimPlan fs nbp2 "node.exe" with
    | none => exact shimStep_of_plan_none _ _ _ _ ((hplanB _ hb1).trans hpn)
    | some cn =>
      rw [shimStep_of_plan_some _ _ _ _ _ ((hplanB _ hb1).trans hpn)]
      exact writeFs_eq_of_allKey _ _ _ (factNode cn hpn).1 (factNode cn hpn).2
  have hB2 : shimStep nbp2 shimDir (CreateWindowsShims nodeBinPath shimDir fs) "npm.cmd" =
      CreateWindowsShims nodeBinPath shimDir fs := by
    cases hpm : shimPlan fs nbp2 "npm.cmd" with
    | none => exact shimStep_of_plan_none _ _ _ _ ((hplanB _ hb2).trans hpm)
    | some cm =>
      rw [shimStep_of_plan_some _ _ _ _ _ ((hplanB _ hb2).trans hpm)]
      exact writeFs_eq_of_allKey _ _ _ (factNpm cm hpm).1 (factNpm cm hpm).2
  have hB3 : shimStep nbp2 shimDir (CreateWindowsShims nodeBinPath shimDir fs) "npx.cmd" =
      CreateWindowsShims nodeBinPath shimDir fs := by
    cases hpx : shimPlan fs nbp2 "npx.cmd" with
    | none => exact shimStep_of_plan_none _ _ _ _ ((hplanB _ hb3).trans hpx)
    | some cx =>
      rw [shimStep_of_plan_some _ _ _ _ _ ((hplanB _ hb3).trans hpx)]
      exact writeFs_eq_of_allKey _ _ _ (factNpx cx hpx).1 (factNpx cx hpx).2
  have run2 : ∀ fsX : FileSys, locateNodeBinPath fsX nodeBinPath = nbp2 →
      shimStep nbp2 shimDir fsX "node.exe" = fsX →
      shimStep nbp2 shimDir fsX "npm.cmd" = fsX →
      shimStep nbp2 shimDir fsX "npx.cmd" = fsX →
      statFs fsX (pathUnder shimDir "node.exe") = true →
      CreateWindowsShims nodeBinPath shimDir fsX = fsX := by
    intro fsX hl h1 h2 h3 hstat
    simp only [CreateWindowsShims, shimBinaries, List.foldl_cons, List.foldl_nil]
    rw [hl, h1, h2, h3, if_pos hstat]
  exact run2 (CreateWindowsShims nodeBinPath shimDir fs) hloc1 hB1 hB2 hB3 factB

/-- C9: activation is idempotent on both platforms.  On POSIX, a second
    SetActiveVersion of an installed version succeeds and leaves the
    store — in particular the activation symlink target — exactly as the
    first call left it.  On Windows, running CreateWindowsShims twice
    over the abstract filesystem produces the same shim files and
    contents as running it once, provided the shim directory does not
    alias the version directory being read (which holds for the
    program's fixed HOME/.node-spark/shims and version layout). -/
theorem C9_theorem :
    (∀ (st : Store) (v : String), st.diskDirs.contains v = true →
        ∃ st1, SetActiveVersion v st = .ok st1 ∧ SetActiveVersion v st1 = .ok st1)
    ∧ (∀ (fs : FileSys) (nodeBinPath shimDir : String),
        (∀ p ∈ shimPaths shimDir, hasPrefixStr p (nodeBinPath ++ "/") = false) →
        (∀ p ∈ shimPaths shimDir, ∀ m ∈ shimReadNames,
            p ≠ pathUnder (locateNodeBinPath fs nodeBinPath) m) →
        CreateWindowsShims nodeBinPath shimDir (CreateWindowsShims nodeBinPath shimDir fs)
          = CreateWindowsShims nodeBinPath shimDir fs) := by
  constructor
  · intro st v hv
    refine ⟨{ st with currentLink := some (joinPath st.installPath v), activeVersion := v },
      SetActiveVersion_of_contains v st hv, ?_⟩
    have hv1 : ({ st with
        currentLink := some (joinPath st.installPath v),
        activeVersion := v } : Store).diskDirs.contains v = true := hv
    rw [SetActiveVersion_of_contains v _ hv1]
  · intro fs nodeBinPath shimDir hp1 hp2
    exact CreateWindowsShims_idem fs nodeBinPath shimDir hp1 hp2

theorem C9_witness :
    (∃ st1, SetActiveVersion "18.17.0" ⟨"/r", ["18.17.0"], "", ["18.17.0"], none⟩ = .ok st1
        ∧ SetActiveVersion "18.17.0" st1 = .ok st1)
    ∧ CreateWindowsShims "/v/18" "/s"
        (CreateWindowsShims "/v/18" "/s" [("/v/18/node.exe", "NODE")]) =
      CreateWindowsShims "/v/18" "/s" [("/v/18/node.exe", "NODE")] :=
  ⟨C9_theorem.1 ⟨"/r", ["18.17.0"], "", ["18.17.0"], none⟩ "18.17.0" (by decide),
   C9_theorem.2 [("/v/18/node.exe", "NODE")] "/v/18" "/s" (by decide) (by decide)⟩

end NodeSpark
